import Mathlib

/-!
Verification of the distribution layer of the particles repository
(file particles/distributions.py) against its natural-language
specification.  The definitions below are a shallow embedding of the
Python source: numpy float arrays are modelled over the exact field of
rationals (for the linear-algebra primitive) or over the reals (for the
abstract density contract), fallible code returns Except values whose
error constructors name the Python exception the interpreter would
raise, and randomness is abstracted by recording the deterministic
data flow around the draw.
-/

namespace Particles

/-- Python runtime exceptions that the embedded code can raise. -/
inductive PyError where
  /-- NameError: a referenced name is not bound in any enclosing scope. -/
  | nameError
  /-- AttributeError: an object attribute that was never assigned is read. -/
  | attrError
  /-- AssertionError, raised explicitly by the source. -/
  | assertionError
  /-- ValueError, raised explicitly by the source. -/
  | valueError
  /-- UnboundLocalError: a local variable is referenced before assignment. -/
  | unboundLocalError
  /-- IndexError: sequence index out of range. -/
  | indexError
  /-- An error raised inside numpy (broadcasting or axis errors). -/
  | numpyError
  deriving DecidableEq, Repr

/-- Square rational matrices, the model of (d, d) float ndarrays. -/
abbrev SqMat (d : ℕ) := Matrix (Fin d) (Fin d) ℚ

/-- Model of scipy.linalg.inv on an invertible matrix: the unique inverse,
computed by the adjugate formula (executable, and equal to the numeric
inverse scipy returns whenever the argument is invertible). -/
def matInv {d : ℕ} (M : SqMat d) : SqMat d := M.det⁻¹ • M.adjugate

/-- The state of an MvNormal instance after construction: per-entity means
(an (N, d) array modelled as a list of d-vectors), the scalar scale
multiplier, and the list of per-entity (d, d) covariance matrices.
The Cholesky factors cached by the constructor are derived data and are
not needed by the claims settled here (logpdf, the only consumer, fails
before ever reading them; see MvNormalState.logpdfRun). -/
structure MvNormalState (d : ℕ) where
  loc : List (Fin d → ℚ)
  scale : ℚ
  cov : List (SqMat d)

/-- MvNormal.__init__: when cov is None it is set to loc.shape[0] copies of
the d-dimensional identity matrix, otherwise the given array is stored.
(The positive-definiteness check performed via the Cholesky factorization
is not modelled; all claims below use identity or inverse-of-sum
covariances, which are positive definite.) -/
def mvInit {d : ℕ} (loc : List (Fin d → ℚ)) (scale : ℚ)
    (cov : Option (List (SqMat d))) : MvNormalState d :=
  { loc := loc, scale := scale,
    cov := cov.getD (List.replicate loc.length 1) }

/-- MvNormal.number: the property self.cov.shape[0], the number of
per-entity parameter rows. -/
def MvNormalState.number {d : ℕ} (st : MvNormalState d) : ℕ :=
  st.cov.length

/-- MvNormal.rvs, modelled up to the randomness of the standard-normal
noise: the value returned is the number of draws produced (the draws
themselves are mean[i] + scale * (noise[i] @ L[i].T) for fresh noise).
Control flow is translated literally from the source:

  if size is None: size = self.number
  elif size > self.number: raise AssertionError(...)
  else: N = size
  z = stats.norm.rvs(size=(N, self.dim)) ...

The local N is assigned only in the final else branch, so the call with
size=None (which only rebinds size, not N) reaches the use of N with N
unbound and raises UnboundLocalError.  linear_transform then indexes
self.loc[i] for i < N, which raises IndexError when loc has fewer rows. -/
def MvNormalState.rvsRun {d : ℕ} (st : MvNormalState d)
    (size : Option ℕ) : Except PyError ℕ :=
  match size with
  | none => .error .unboundLocalError
  | some s =>
      if s > st.number then .error .assertionError
      else if s > st.loc.length then .error .indexError
      else .ok s

/-- MvNormal.logpdf as written in the source: after the capacity check
(x.shape[0] <= self.number), the first loop iteration evaluates

  solve_triangular(L, ((x[i] - loc[i]) / scale), lower=True)

in which the names L, loc and scale are unbound (the constructor stored
the attributes self.L_list, self.loc, self.scale; no bare L, loc or
scale exists in any enclosing scope), so NameError is raised.  With an
empty x the loop is skipped and the function instead fails inside numpy
(logdet broadcasting, or the axis=1 reduction of the 1-dimensional empty
z array). -/
def MvNormalState.logpdfRun {d : ℕ} (st : MvNormalState d)
    (x : List (Fin d → ℚ)) : Except PyError (List ℚ) :=
  if x.length > st.number then .error .assertionError
  else
    match x with
    | [] => .error .numpyError
    | _ :: _ => .error .nameError

/-- One entry of the Qpost loop of MvNormal.posterior:
Qpost[i] = covinv[i] + n * Siginv[i], with IndexError when either list
is shorter than the loop range. -/
def qpostEntry {d : ℕ} (covinv Siginv : List (SqMat d)) (n i : ℕ) :
    Except PyError (SqMat d) :=
  match covinv[i]?, Siginv[i]? with
  | some c, some s => .ok (c + (n : ℚ) • s)
  | _, _ => .error .indexError

/-- One entry of the mupost loop of MvNormal.posterior:
mupost[i] = Sigpost[i] @ (m[i] @ covinv[i] + Siginv[i] @ np.sum(x, axis=0)),
with IndexError when any list is shorter than the loop range.  Note the
source writes the first summand as the row-vector product m[i] @ covinv[i],
i.e. Matrix.vecMul. -/
def mupostEntry {d : ℕ} (Sigpost covinv Siginv : List (SqMat d))
    (loc : List (Fin d → ℚ)) (xsum : Fin d → ℚ) (i : ℕ) :
    Except PyError (Fin d → ℚ) :=
  match Sigpost[i]?, covinv[i]?, Siginv[i]?, loc[i]? with
  | some sp, some c, some s, some m =>
      .ok (sp.mulVec (Matrix.vecMul m c + s.mulVec xsum))
  | _, _, _, _ => .error .indexError

/-- MvNormal.posterior: conjugate update for the model
X1, ..., Xn ~ N(theta, Sigma), theta ~ self.  Translated line by line:
a ValueError if scale is not 1; n = x.shape[0]; Sigma defaults to n
identity matrices; Siginv and covinv are the entrywise inverses;
Qpost[i] = covinv[i] + n * Siginv[i] for i in range(n);
Sigpost = entrywise inverse of Qpost;
mupost[i] = Sigpost[i] @ (m[i] @ covinv[i] + Siginv[i] @ np.sum(x, axis=0))
with m = self.loc (loc is an (N, d) array for every constructed instance);
a fresh MvNormal(loc=mupost, cov=Sigpost) is returned (default scale 1). -/
def MvNormalState.posterior {d : ℕ} (st : MvNormalState d)
    (x : List (Fin d → ℚ)) (Sigma : Option (List (SqMat d))) :
    Except PyError (MvNormalState d) :=
  if st.scale = 1 then
    let n := x.length
    let Sig := Sigma.getD (List.replicate n 1)
    let Siginv := Sig.map matInv
    let covinv := st.cov.map matInv
    match (List.range n).mapM (fun i => qpostEntry covinv Siginv n i) with
    | .error e => .error e
    | .ok qpost =>
        let sigpost := qpost.map matInv
        let xsum := x.foldl (fun acc v => acc + v) 0
        match (List.range n).mapM
            (fun i => mupostEntry sigpost covinv Siginv st.loc xsum i) with
        | .error e => .error e
        | .ok mupost => .ok (mvInit mupost 1 (some sigpost))
  else .error .valueError

/-- The value of Qpost[i] in MvNormal.posterior: prior precision plus
n times data precision (for in-range i; the getD defaults are dead for
the indices the loop visits). -/
def qVal {d : ℕ} (st : MvNormalState d) (SigL : List (SqMat d))
    (n i : ℕ) : SqMat d :=
  ((st.cov.map matInv)[i]?).getD 0 +
    (n : ℚ) • (((SigL.map matInv))[i]?).getD 0

/-- The value of Sigpost[i] in MvNormal.posterior: the inverse of
Qpost[i]. -/
def sigVal {d : ℕ} (st : MvNormalState d) (SigL : List (SqMat d))
    (n i : ℕ) : SqMat d :=
  matInv (qVal st SigL n i)

/-- The value of mupost[i] in MvNormal.posterior:
Sigpost[i] @ (m[i] @ covinv[i] + Siginv[i] @ sum of observations). -/
def muVal {d : ℕ} (st : MvNormalState d) (SigL : List (SqMat d))
    (x : List (Fin d → ℚ)) (i : ℕ) : Fin d → ℚ :=
  (sigVal st SigL x.length i).mulVec
    (Matrix.vecMul ((st.loc[i]?).getD 0) (((st.cov.map matInv)[i]?).getD 0)
      + (((SigL.map matInv)[i]?).getD 0).mulVec
          (x.foldl (fun acc v => acc + v) 0))

/-- The distribution contract (base class ProbDist), restricted to what the
claims need: a law exposes a log-density, a sampler and a quantile
function, all delegating their numeric content to the external
statistical library.  Densities are real valued; the sampler is modelled
by the deterministic value it produces for one entry once its stream of
uniform randomness is fixed (the composition claims below are about data
flow and evaluation order, not about the distribution of the draws). -/
structure Law where
  logpdf : ℝ → ℝ
  rvs : ℝ
  ppf : ℝ → ℝ

/-- ProbDist.pdf, defined once on the base contract as the exponential of
logpdf.  No subclass in the source overrides pdf, so this is the pdf of
every law. -/
noncomputable def Law.pdf (D : Law) (x : ℝ) : ℝ :=
  Real.exp (D.logpdf x)

/-- A value of the component collection of a StructDist: either a plain
law, or a Cond wrapper holding a function from the current samples to a
law.  The source dispatches with callable(law): Cond instances are
callable, plain ProbDist instances are not, so the tag is exactly the
callable test. -/
inductive FieldLaw where
  | plain (law : Law)
  | cond (fn : (String → ℝ) → Law)

/-- cond_law = law(theta) if callable(law) else law. -/
def resolveLaw (fl : FieldLaw) (theta : String → ℝ) : Law :=
  match fl with
  | .plain law => law
  | .cond fn => fn theta

/-- A structured record (one element of a structured array): a named
field map.  Records are modelled as total functions so that reading a
never-written field returns the uninitialized contents np.empty left
there. -/
abbrev Record := String → ℝ

/-- StructDist.logpdf: l = 0., then for each (par, law) pair in
construction order, l += cond_law.logpdf(theta[par]) where cond_law
resolves a callable law against the input theta itself. -/
def structLogpdf (fields : List (String × FieldLaw)) (theta : Record) : ℝ :=
  fields.foldl (fun l pf => l + (resolveLaw pf.2 theta).logpdf (theta pf.1)) 0

/-- StructDist.rvs for one record: out = np.empty(..) (modelled by an
arbitrary initial record standing for the uninitialized memory), then for
each (par, law) pair in construction order, the law is resolved against
the partially filled out and out[par] is overwritten with its draw. -/
def structRvs (fields : List (String × FieldLaw)) (init : Record) : Record :=
  fields.foldl
    (fun out pf => Function.update out pf.1 (resolveLaw pf.2 out).rvs) init

/-- StructDist.ppf as written in the source:

  def ppf(self, theta):
      out = np.empty(size, dtype=self.dtype)
      ...

The name size is not a parameter of ppf and is bound in no enclosing
scope, so the very first statement raises NameError on every call,
before any field is evaluated. -/
def structPpf (fields : List (String × FieldLaw)) (theta : Record) :
    Except PyError Record :=
  .error .nameError

/-- The laws argument accepted by StructDist.__init__: an OrderedDict
(a key-ordered association list), a plain dict (an association list with
distinct keys whose iteration order carries no meaning), or anything
else. -/
inductive LawsArg where
  | odict (fields : List (String × FieldLaw))
  | pdict (fields : List (String × FieldLaw))
  | notADict

/-- OrderedDict([(key, laws[key]) for key in sorted(laws.keys())]):
the field collection of a plain dict, reordered by ascending key
(lexicographic string order, as Python sorted on str). -/
def sortFields (fields : List (String × FieldLaw)) :
    List (String × FieldLaw) :=
  List.insertionSort (fun a b => a.1 ≤ b.1) fields

/-- StructDist.__init__: an OrderedDict is stored as is, a plain dict is
reordered by sorted key, and any other argument raises ValueError.
(The dtype list also built there is derived data not needed by the
claims.) -/
def structInit (laws : LawsArg) :
    Except PyError (List (String × FieldLaw)) :=
  match laws with
  | .odict fields => .ok fields
  | .pdict fields => .ok (sortFields fields)
  | .notADict => .error .valueError

/-- IndepProd.logpdf on one d-vector x (modelled as a list of length
d = len(dists)): sum([d.logpdf(x[..., i]) for i, d in enumerate(dists)]),
i.e. a left fold of + starting from 0 over the indexed components. -/
def indepLogpdf (dists : List Law) (x : List ℝ) : ℝ :=
  ((dists.enum).map (fun p => p.2.logpdf (x.getD p.1 0))).foldl (· + ·) 0

/-- IndepProd.logpdf on a batch of points (an (N, d) array modelled as a
list of rows): each component law is vectorized, so d.logpdf(x[..., i])
is the column of per-row values, and Python sum adds these columns
elementwise starting from the zero column. -/
def indepLogpdfBatch (dists : List Law) (xs : List (List ℝ)) : List ℝ :=
  ((dists.enum).map
      (fun p => xs.map (fun row => p.2.logpdf (row.getD p.1 0)))).foldl
    (fun acc col => List.zipWith (· + ·) acc col)
    (List.replicate xs.length 0)

/-- The state Mixture.__init__ is trying to build. -/
structure MixtureState where
  pk : List ℚ
  k : ℕ
  components : List Law

/-- Mixture.__init__ as written in the source:

  self.pk = np.atleast_1d(pk)
  self.k = self.p.shape[-1]

The second statement reads the attribute p, which was never assigned
(only pk was), so every construction of a Mixture raises AttributeError
before the weights are compared with the component count. -/
def mixtureInit (pk : List ℚ) (components : List Law) :
    Except PyError MixtureState :=
  .error .attrError

/-! Concrete instances used by the witnesses: the d = 1 standard-normal
prior N(0, 1), the single observation x = [[2.0]] with Sigma = [[[1.]]],
and an instance built from 3 per-entity means. -/

/-- The (1, 1) mean array [[0.]] of the d = 1 prior. -/
def locPrior : List (Fin 1 → ℚ) := [fun _ => 0]

/-- The prior N(0, 1) as a batched MvNormal with one parameter row:
MvNormal(loc=[[0.]]) with default scale 1 and default identity cov. -/
def priorStd : MvNormalState 1 := mvInit locPrior 1 none

/-- The observation array x = [[2.0]]. -/
def obsX : List (Fin 1 → ℚ) := [fun _ => 2]

/-- The model covariance Sigma = [[[1.]]]. -/
def obsSigma : List (SqMat 1) := [1]

/-- Three per-entity means (a (3, 1) loc array of zeros). -/
def loc3 : List (Fin 1 → ℚ) := [fun _ => 0, fun _ => 0, fun _ => 0]

/-- A batched MvNormal built from 3 per-entity means, default covariance. -/
def mv3 : MvNormalState 1 := mvInit loc3 1 none

/-- A throwaway concrete law (log-density identically 0, draw 0, identity
quantile map), used to populate concrete field collections. -/
def flatLaw : Law := { logpdf := fun _ => 0, rvs := 0, ppf := fun u => u }

/-! Helper lemmas shared by several claims. -/

/-- A left fold accumulating l + g b over a list is the starting value
plus the sum of the mapped list. -/
theorem foldl_add_eq {α : Type} (g : α → ℝ) :
    ∀ (l : List α) (a : ℝ),
      l.foldl (fun s b => s + g b) a = a + (l.map g).sum
  | [], a => by simp
  | b :: l, a => by
      rw [List.foldl_cons, foldl_add_eq g l (a + g b)]
      simp [add_assoc]

/-- mapM in the Except monad succeeds with the pointwise map when every
element succeeds. -/
theorem mapM_ok {α β : Type} (f : α → Except PyError β) (g : α → β) :
    ∀ l : List α, (∀ a ∈ l, f a = .ok (g a)) → l.mapM f = .ok (l.map g) := by
  intro l
  induction l with
  | nil => intro _; rfl
  | cons a l ih =>
      intro h
      rw [List.mapM_cons, h a (List.mem_cons_self a l),
        ih (fun b hb => h b (List.mem_cons_of_mem a hb))]
      rfl

/-- Zipping two maps of the same list combines them pointwise. -/
theorem zipWith_map_same {α : Type} (f : ℝ → ℝ → ℝ) (g h : α → ℝ) :
    ∀ xs : List α,
      List.zipWith f (xs.map g) (xs.map h) = xs.map (fun a => f (g a) (h a))
  | [] => rfl
  | a :: xs => by
      rw [List.map_cons, List.map_cons, List.zipWith_cons_cons,
        zipWith_map_same f g h xs, List.map_cons]

/-- Folding elementwise vector addition over columns that are maps of one
row list equals mapping the scalar fold over the rows. -/
theorem zipfold {α β : Type} (xs : List α) :
    ∀ (gs : List β) (G : β → α → ℝ) (accf : α → ℝ),
      gs.foldl (fun acc p => List.zipWith (· + ·) acc (xs.map (G p)))
          (xs.map accf)
        = xs.map (fun a => gs.foldl (fun s p => s + G p a) (accf a))
  | [], _, _ => by simp
  | p :: gs, G, accf => by
      rw [List.foldl_cons, zipWith_map_same (· + ·) accf (G p) xs,
        zipfold xs gs G (fun a => accf a + G p a)]
      rfl

/-- The adjugate-formula inverse of a symmetric matrix is symmetric. -/
theorem matInv_isSymm {d : ℕ} {M : SqMat d} (h : M.IsSymm) :
    (matInv M).IsSymm := by
  unfold Matrix.IsSymm matInv
  rw [Matrix.transpose_smul, Matrix.adjugate_transpose, h]

/-- For a symmetric matrix, the row-vector product m @ A agrees with the
matrix-vector product A @ m. -/
theorem vecMul_of_isSymm {d : ℕ} {A : SqMat d} (h : A.IsSymm)
    (m : Fin d → ℚ) : Matrix.vecMul m A = A.mulVec m := by
  have hv := Matrix.vecMul_transpose A m
  rw [h] at hv
  exact hv

/-! Claim theorems. -/

/-- C2 (code bug): MvNormal.logpdf never returns the per-entry Gaussian
log-density: for every instance and every nonempty batch x that passes
the capacity check, the call raises NameError, because the loop body
references the unbound names L, loc and scale instead of the attributes
self.L_list[i], self.loc and self.scale cached at construction. -/
theorem mvNormal_logpdf_raises_nameError {d : ℕ} (st : MvNormalState d)
    (x : List (Fin d → ℚ)) (hne : 0 < x.length)
    (hcap : x.length ≤ st.number) :
    st.logpdfRun x = .error .nameError := by
  unfold MvNormalState.logpdfRun
  rw [if_neg (by omega : ¬ x.length > st.number)]
  cases x with
  | nil => exact absurd hne (by simp)
  | cons y ys => rfl

/-- Witness for C2: the standard-normal prior instance with the batch
[[2.0]] satisfies the hypotheses and raises NameError. -/
theorem mvNormal_logpdf_raises_nameError_witness :
    0 < obsX.length ∧ obsX.length ≤ priorStd.number ∧
      priorStd.logpdfRun obsX = .error .nameError :=
  ⟨by decide, by decide,
    mvNormal_logpdf_raises_nameError priorStd obsX (by decide) (by decide)⟩

/-- C3 (code bug): rvs with size omitted does not return one draw per
parameter row: for every instance, rvs(size=None) raises
UnboundLocalError, because the branch for size=None rebinds size but the
local N used to shape the noise is assigned only in the final else
branch. -/
theorem mvNormal_rvs_size_none_raises {d : ℕ} (st : MvNormalState d) :
    st.rvsRun none = .error .unboundLocalError := rfl

/-- C4: requesting more draws than there are per-entity parameter rows
raises an AssertionError at the rvs call site; the draw count is never
truncated or wrapped. -/
theorem mvNormal_rvs_capacity_violation {d : ℕ} (st : MvNormalState d)
    (s : ℕ) (h : st.number < s) :
    st.rvsRun (some s) = .error .assertionError := by
  simp [MvNormalState.rvsRun, h]

/-- Witness for C4: rvs(size=5) on the instance built from 3 per-entity
means raises the capacity violation. -/
theorem mvNormal_rvs_capacity_violation_witness :
    mv3.number < 5 ∧ mv3.rvsRun (some 5) = .error .assertionError :=
  ⟨by decide, mvNormal_rvs_capacity_violation mv3 5 (by decide)⟩

/-- C5: StructDist.logpdf iterates the fields in construction order,
resolves each conditional field law against the input theta itself, and
returns the sum of every field's log-density; in particular, for the
ordered two-field collection mu : Normal-like A, tau : Cond fn, the
log-density of a record theta is A.logpdf(theta.mu) plus
(fn theta).logpdf(theta.tau). -/
theorem structDist_logpdf_chain_rule :
    (∀ (fields : List (String × FieldLaw)) (theta : Record),
        structLogpdf fields theta =
          (fields.map
            (fun pf => (resolveLaw pf.2 theta).logpdf (theta pf.1))).sum) ∧
    (∀ (A : Law) (fn : Record → Law) (theta : Record),
        structLogpdf [("mu", .plain A), ("tau", .cond fn)] theta =
          A.logpdf (theta "mu") + (fn theta).logpdf (theta "tau")) := by
  constructor
  · intro fields theta
    rw [structLogpdf, foldl_add_eq, zero_add]
  · intro A fn theta
    simp [structLogpdf, resolveLaw]

/-- C6 (code bug): no Mixture can behave like its first component,
because Mixture.__init__ raises AttributeError on every argument list
(it reads self.p although only self.pk was assigned); in particular the
mixture with weights [1, 0] over two components cannot be constructed. -/
theorem mixture_init_always_fails (pk : List ℚ) (components : List Law) :
    mixtureInit pk components = .error .attrError := rfl

/-- C7: the independent-product log-density is the sum over coordinates
of each component's log-density at the corresponding coordinate slice;
for two univariate laws A and B it is A.logpdf x + B.logpdf y at [x, y];
and on a batch of d-vectors it acts row-wise as the single-vector
version. -/
theorem indepProd_logpdf_sum :
    (∀ (A B : Law) (x y : ℝ),
        indepLogpdf [A, B] [x, y] = A.logpdf x + B.logpdf y) ∧
    (∀ (dists : List Law) (x : List ℝ),
        indepLogpdf dists x =
          ((dists.enum).map (fun p => p.2.logpdf (x.getD p.1 0))).sum) ∧
    (∀ (dists : List Law) (xs : List (List ℝ)),
        indepLogpdfBatch dists xs =
          xs.map (fun row => indepLogpdf dists row)) := by
  refine ⟨?_, ?_, ?_⟩
  · intro A B x y
    simp [indepLogpdf, List.enum, List.enumFrom]
  · intro dists x
    rw [indepLogpdf, foldl_add_eq (fun b => b), zero_add, List.map_id']
  · intro dists xs
    rw [indepLogpdfBatch, List.foldl_map,
      show List.replicate xs.length (0 : ℝ) = xs.map (fun _ => 0) by
        rw [List.map_const'],
      zipfold xs dists.enum (fun p a => p.2.logpdf (a.getD p.1 0))
        (fun _ => 0)]
    refine List.map_congr_left (fun row _ => ?_)
    rw [indepLogpdf, List.foldl_map]

/-- C8 (code bug): StructDist.ppf never evaluates any field: its first
statement allocates np.empty(size, ...) where size is an undefined name,
so every call raises NameError. -/
theorem structDist_ppf_always_raises
    (fields : List (String × FieldLaw)) (theta : Record) :
    structPpf fields theta = .error .nameError := rfl

/-- C9: for every law and every input, pdf is exactly the exponential of
logpdf: pdf is derived once on the base contract (and no law in the
source overrides it), so the two can never disagree. -/
theorem pdf_eq_exp_logpdf (D : Law) (x : ℝ) :
    D.pdf x = Real.exp (D.logpdf x) := rfl

/-- C10 (corrected): a StructDist built from a plain dict stores its
fields reordered alphabetically by key name (the stored collection is a
permutation of the given one with keys in ascending order), this sorted
order is the fixed chain-rule evaluation order used by logpdf and rvs
(on the plain dict with fields tau and mu, mu is evaluated first, and
the conditional law of tau is resolved against the record already
holding the drawn mu), and a non-dict argument raises ValueError.  The
part of the claim naming ppf fails on the code; see the
counterexample. -/
theorem structDist_plain_dict_sorted_order :
    (∀ fields : List (String × FieldLaw),
        structInit (.pdict fields) = .ok (sortFields fields) ∧
        (sortFields fields).Perm fields ∧
        List.Sorted (fun a b => a.1 ≤ b.1) (sortFields fields)) ∧
    (∀ (A : Law) (fn : Record → Law) (theta : Record) (start : Record),
        structInit (.pdict [("tau", .cond fn), ("mu", .plain A)]) =
          .ok [("mu", .plain A), ("tau", .cond fn)] ∧
        structLogpdf [("mu", .plain A), ("tau", .cond fn)] theta =
          A.logpdf (theta "mu") + (fn theta).logpdf (theta "tau") ∧
        structRvs [("mu", .plain A), ("tau", .cond fn)] start "mu" =
          A.rvs ∧
        structRvs [("mu", .plain A), ("tau", .cond fn)] start "tau" =
          (fn (Function.update start "mu" A.rvs)).rvs) ∧
    structInit .notADict = .error .valueError := by
  refine ⟨?_, ?_, rfl⟩
  · intro fields
    refine ⟨rfl, List.perm_insertionSort _ _, ?_⟩
    haveI : IsTotal (String × FieldLaw) (fun a b => a.1 ≤ b.1) :=
      ⟨fun a b => le_total a.1 b.1⟩
    haveI : IsTrans (String × FieldLaw) (fun a b => a.1 ≤ b.1) :=
      ⟨fun _ _ _ hab hbc => le_trans hab hbc⟩
    exact List.sorted_insertionSort _ _
  · intro A fn theta start
    have hne : ("mu" : String) ≠ "tau" := by decide
    have hts : ¬ (("tau" : String) ≤ "mu") := by
      rw [String.le_iff_toList_le]; decide
    refine ⟨?_, ?_, ?_, ?_⟩
    · simp [structInit, sortFields, List.insertionSort, List.orderedInsert,
        hts]
    · simp [structLogpdf, resolveLaw]
    · simp [structRvs, resolveLaw, Function.update_noteq hne,
        Function.update_same]
    · simp [structRvs, resolveLaw, Function.update_same]

/-- Counterexample refuting C10 as stated: on the concrete sorted
two-field instance built from a plain dict, ppf does not apply any
field law's quantile function and returns no structured array; it
raises NameError (its first statement reads the undefined name size),
so the sorted order is not an evaluation order used by ppf. -/
theorem structDist_ppf_nameError_cx :
    structPpf
        (sortFields [("tau", .cond fun _ => flatLaw), ("mu", .plain flatLaw)])
        (fun _ => 0) = .error .nameError := rfl

/-- Computation lemma: when scale is 1 and every array offers at least
x.length rows, posterior succeeds and returns the instance whose i-th
covariance is Sigpost[i] and whose i-th mean row is mupost[i]. -/
theorem posterior_eq {d : ℕ} (st : MvNormalState d)
    (x : List (Fin d → ℚ)) (SigL : List (SqMat d))
    (hscale : st.scale = 1) (hcov : x.length ≤ st.cov.length)
    (hloc : x.length ≤ st.loc.length) (hSig : x.length ≤ SigL.length) :
    st.posterior x (some SigL) =
      .ok (mvInit ((List.range x.length).map (muVal st SigL x)) 1
        (some ((List.range x.length).map (sigVal st SigL x.length)))) := by
  have hq : (List.range x.length).mapM
      (fun i => qpostEntry (st.cov.map matInv) (SigL.map matInv)
        x.length i) =
      .ok ((List.range x.length).map (qVal st SigL x.length)) := by
    refine mapM_ok _ _ _ (fun i hi => ?_)
    have hi' : i < x.length := List.mem_range.mp hi
    obtain ⟨c, hc⟩ : ∃ c, (st.cov.map matInv)[i]? = some c :=
      ⟨_, List.getElem?_eq_getElem (by simpa using lt_of_lt_of_le hi' hcov)⟩
    obtain ⟨s, hs⟩ : ∃ s, (SigL.map matInv)[i]? = some s :=
      ⟨_, List.getElem?_eq_getElem (by simpa using lt_of_lt_of_le hi' hSig)⟩
    rw [qpostEntry, qVal, hc, hs]
    rfl
  have hmu : (List.range x.length).mapM
      (fun i => mupostEntry
        (((List.range x.length).map (qVal st SigL x.length)).map matInv)
        (st.cov.map matInv) (SigL.map matInv) st.loc
        (x.foldl (fun acc v => acc + v) 0) i) =
      .ok ((List.range x.length).map (muVal st SigL x)) := by
    refine mapM_ok _ _ _ (fun i hi => ?_)
    have hi' : i < x.length := List.mem_range.mp hi
    obtain ⟨c, hc⟩ : ∃ c, (st.cov.map matInv)[i]? = some c :=
      ⟨_, List.getElem?_eq_getElem (by simpa using lt_of_lt_of_le hi' hcov)⟩
    obtain ⟨s, hs⟩ : ∃ s, (SigL.map matInv)[i]? = some s :=
      ⟨_, List.getElem?_eq_getElem (by simpa using lt_of_lt_of_le hi' hSig)⟩
    obtain ⟨m, hm⟩ : ∃ m, st.loc[i]? = some m :=
      ⟨_, List.getElem?_eq_getElem (lt_of_lt_of_le hi' hloc)⟩
    have hsp :
        (((List.range x.length).map (qVal st SigL x.length)).map
          matInv)[i]? = some (sigVal st SigL x.length i) := by
      rw [List.getElem?_map, List.getElem?_map, List.getElem?_range hi']
      rfl
    rw [mupostEntry, muVal, hsp, hc, hs, hm]
    rfl
  rw [MvNormalState.posterior, if_pos hscale]
  simp only [Option.getD_some]
  rw [hq]
  simp only []
  rw [hmu]
  simp only [List.map_map]
  rfl

/-- C1: for a batched MvNormal with scale 1, posterior(x, Sigma)
performs the closed-form conjugate update per entry: the returned
instance is a new one (scale 1, one row per observation) whose i-th
precision is the prior precision plus n times the data precision, whose
i-th covariance is the inverse of that, and whose i-th mean is that
covariance applied to (prior precision times prior mean plus data
precision times the sum of observations) whenever the prior covariance
entry is symmetric.  The witness instantiates this at d = 1, n = 1,
prior N(0, 1), x = [[2.0]], Sigma = [[[1.]]], where the posterior mean
is exactly 1 and the posterior covariance exactly 1/2. -/
theorem mvNormal_posterior_conjugate {d : ℕ} (st : MvNormalState d)
    (x : List (Fin d → ℚ)) (SigL : List (SqMat d))
    (hscale : st.scale = 1) (hcov : x.length ≤ st.cov.length)
    (hloc : x.length ≤ st.loc.length) (hSig : x.length ≤ SigL.length) :
    ∃ post : MvNormalState d,
      st.posterior x (some SigL) = .ok post ∧
      post.scale = 1 ∧ post.number = x.length ∧
      post.loc.length = x.length ∧
      ∀ i : ℕ, i < x.length → ∀ C S m,
        st.cov[i]? = some C → SigL[i]? = some S → st.loc[i]? = some m →
        post.cov[i]? =
          some (matInv (matInv C + (x.length : ℚ) • matInv S)) ∧
        (C.IsSymm →
          post.loc[i]? = some
            ((matInv (matInv C + (x.length : ℚ) • matInv S)).mulVec
              ((matInv C).mulVec m +
                (matInv S).mulVec (x.foldl (fun acc v => acc + v) 0)))) := by
  refine ⟨_, posterior_eq st x SigL hscale hcov hloc hSig, rfl, ?_, ?_, ?_⟩
  · simp [mvInit, MvNormalState.number]
  · simp [mvInit]
  · intro i hi C S m hC hS hm
    have hcovq : (st.cov.map matInv)[i]? = some (matInv C) := by
      rw [List.getElem?_map, hC]; rfl
    have hSigq : (SigL.map matInv)[i]? = some (matInv S) := by
      rw [List.getElem?_map, hS]; rfl
    constructor
    · show ((List.range x.length).map (sigVal st SigL x.length))[i]? = _
      rw [List.getElem?_map, List.getElem?_range hi]
      show some (sigVal st SigL x.length i) = _
      rw [sigVal, qVal, hcovq, hSigq]
      rfl
    · intro hsymC
      show ((List.range x.length).map (muVal st SigL x))[i]? = _
      rw [List.getElem?_map, List.getElem?_range hi]
      show some (muVal st SigL x i) = _
      rw [muVal, sigVal, qVal, hcovq, hSigq, hm]
      simp only [Option.getD_some]
      rw [vecMul_of_isSymm (matInv_isSymm hsymC) m]

/-- The adjugate-formula inverse of the identity is the identity. -/
theorem matInv_one {d : ℕ} : matInv (1 : SqMat d) = 1 := by
  rw [matInv, Matrix.det_one, Matrix.adjugate_one]
  simp

/-- On 1 by 1 matrices the adjugate-formula inverse is the scalar
inverse of the single entry. -/
theorem matInv_fin_one (A : SqMat 1) : matInv A = (A 0 0)⁻¹ • 1 := by
  rw [matInv, Matrix.det_fin_one, Matrix.adjugate_fin_one]

/-- Matrix-vector product on 1 by 1 matrices. -/
theorem mulVec_fin_one (A : SqMat 1) (w : Fin 1 → ℚ) (i : Fin 1) :
    A.mulVec w i = A i 0 * w 0 := by
  simp [Matrix.mulVec, Matrix.dotProduct, Fin.sum_univ_one]

/-- Witness for C1: at d = 1, n = 1, prior N(0, 1), observation
x = [[2.0]] and Sigma = [[[1.]]], the hypotheses hold and the returned
law has mean exactly 1 and covariance exactly 1/2. -/
theorem mvNormal_posterior_conjugate_witness :
    (priorStd.scale = 1 ∧ obsX.length ≤ priorStd.cov.length ∧
      obsX.length ≤ priorStd.loc.length ∧
      obsX.length ≤ obsSigma.length) ∧
    ∃ post : MvNormalState 1,
      priorStd.posterior obsX (some obsSigma) = .ok post ∧
      post.scale = 1 ∧
      post.loc.map (fun v => v 0) = [1] ∧
      post.cov.map (fun M => M 0 0) = [1 / 2] := by
  have hyp1 : priorStd.scale = 1 := rfl
  have hyp2 : obsX.length ≤ priorStd.cov.length := by decide
  have hyp3 : obsX.length ≤ priorStd.loc.length := by decide
  have hyp4 : obsX.length ≤ obsSigma.length := by decide
  obtain ⟨post, hpost, hsc, hnum, hlen, hent⟩ :=
    mvNormal_posterior_conjugate priorStd obsX obsSigma hyp1 hyp2 hyp3 hyp4
  obtain ⟨hcov0, hmean0⟩ := hent 0 (by decide) 1 1 (fun _ => 0) rfl rfl rfl
  have hmean := hmean0 Matrix.transpose_one
  have hlen1 : post.loc.length = 1 := hlen
  obtain ⟨v, hv⟩ := List.length_eq_one.mp hlen1
  have hnum1 : post.cov.length = 1 := hnum
  obtain ⟨M, hM⟩ := List.length_eq_one.mp hnum1
  rw [hv] at hmean
  rw [hM] at hcov0
  simp only [List.getElem?_cons_zero, Option.some.injEq] at hmean hcov0
  refine ⟨⟨hyp1, hyp2, hyp3, hyp4⟩, post, hpost, hsc, ?_, ?_⟩
  · rw [hv, hmean]
    simp only [List.map_cons, List.map_nil]
    rw [matInv_one, Matrix.one_mulVec, Matrix.one_mulVec, mulVec_fin_one,
      matInv_fin_one]
    simp only [obsX, List.foldl_cons, List.foldl_nil, Matrix.add_apply,
      Matrix.smul_apply, Matrix.smul_apply, Matrix.one_apply_eq,
      Pi.add_apply, Pi.zero_apply, smul_eq_mul, List.length_cons,
      List.length_nil]
    norm_num
  · rw [hM, hcov0]
    simp only [List.map_cons, List.map_nil]
    rw [matInv_one, matInv_fin_one]
    simp only [obsX, Matrix.add_apply, Matrix.smul_apply,
      Matrix.one_apply_eq, smul_eq_mul, List.length_cons, List.length_nil]
    norm_num

end Particles
